import Mathlib

/-!
Shallow embedding of the fab.com content-filter extension content script
(single content script: ElementCache, MessageValidator, FabFilter).

Modelling conventions:
- DOM facts that the script only reads and never mutates (tree structure,
  class names, presence of listing links and images under an element) are
  recorded as fields of the model structures; the two marker attributes the
  script itself writes (data-filtered, data-filtered-processed) and the
  WeakSet of processed links are explicit state, since the engine only ever
  writes the value true for both attributes.
- JavaScript string operations (trim, includes) are re-implemented over
  character lists so that every definition is executable and kernel-reducible.
- Fallible or exception-throwing code is modelled with Except; the
  try/catch in the message handler is modelled by matching on the Except.
-/

/-- Character-level whitespace trim, modelling the JavaScript trim method. -/
def trimChars (s : List Char) : List Char :=
  ((((s.dropWhile Char.isWhitespace).reverse).dropWhile Char.isWhitespace)).reverse

/-- JavaScript trim on strings, via the character-list model. -/
def jsTrim (s : String) : String :=
  String.mk (trimChars s.data)

/-- Membership of one character list as a contiguous infix of another. -/
def listInfix (pat : List Char) : List Char → Bool
  | [] => pat.isEmpty
  | c :: rest => pat.isPrefixOf (c :: rest) || listInfix pat rest

/-- JavaScript includes on strings: pat occurs as a substring of hay. -/
def strIncludes (hay pat : String) : Bool :=
  listInfix pat.data hay.data

/-!
Model of one ancestor element of a seller link, carrying exactly the
facts read by ElementCache.findItemContainer (lines 44 to 94 of the
content script). The querySelector results are static facts of the page
tree (the script never adds or removes listing links or images), so they
are recorded as fields. classList is the token list of the class
attribute; the className string is its space-joined form.
-/
structure AncestorElem where
  id : Nat
  isDiv : Bool
  classList : List String
  hasProductLink : Bool
  hasImage : Bool
  hasSurfaceRootDesc : Bool
deriving DecidableEq, Repr

/-- The className string of an element: its class tokens joined by spaces. -/
def classNameOf (e : AncestorElem) : String :=
  String.intercalate (" ") e.classList

/-- Line 56: current.className is truthy and includes the fabkit- substring. -/
def hasFabkitClasses (e : AncestorElem) : Bool :=
  !(classNameOf e).isEmpty && strIncludes (classNameOf e) ("fabkit-")

/-- Strategy 1 loop of findItemContainer (lines 49 to 68): walk the ancestor
chain with a fuel of 10 levels; accept the first ancestor that has a listing
link and an image and additionally fabkit classes or a surface-root
descendant. -/
def strategy1 : List AncestorElem → Nat → Option AncestorElem
  | _, 0 => none
  | [], _ => none
  | c :: rest, n + 1 =>
    if c.hasProductLink && c.hasImage then
      if hasFabkitClasses c || c.hasSurfaceRootDesc then some c
      else strategy1 rest n
    else strategy1 rest n

/-- The selector div[class*=fabkit-Stack] of line 72: a div whose className
includes the fabkit-Stack substring. -/
def isStackMarker (e : AncestorElem) : Bool :=
  e.isDiv && strIncludes (classNameOf e) ("fabkit-Stack")

/-- The classList check of line 78: carries the exact token fabkit-Stack-root. -/
def isStackRoot (e : AncestorElem) : Bool :=
  List.contains e.classList ("fabkit-Stack-root")

/-- Line 72: sellerLink.closest with selector div[class*=fabkit-Stack].
The seller link itself is an anchor element, never a div, so the search
effectively begins at its parent chain. Returns the matching ancestor
together with the ancestors strictly above it. -/
def closestStack : List AncestorElem → Option (AncestorElem × List AncestorElem)
  | [] => none
  | c :: rest =>
    if isStackMarker c then some (c, rest)
    else closestStack rest

/-- Lines 75 to 82: from the stack container, keep moving to the parent
while the parent has the exact class token fabkit-Stack-root. -/
def walkStack (c : AncestorElem) : List AncestorElem → AncestorElem
  | [] => c
  | p :: rest =>
    if isStackRoot p then walkStack p rest
    else c

/-- ElementCache.findItemContainer (lines 44 to 94), over the ancestor chain
of a seller link (nearest ancestor first). -/
def findItemContainer (chain : List AncestorElem) : Option AncestorElem :=
  match strategy1 chain 10 with
  | some c => some c
  | none =>
    match closestStack chain with
    | none => none
    | some (sc, above) =>
      let productContainer := walkStack sc above
      if productContainer.hasProductLink && productContainer.hasImage then
        some productContainer
      else none

/-!
Specification-side restatement of the container-resolution heuristic,
following the wording of the spec: accept, among the first 10 ancestor
levels, the first one that contains a listing link and an image and either
carries a recognized card class marker (a fabkit- class) or contains a
descendant with a recognized surface class marker; otherwise find the
nearest ancestor with a recognized stack class marker, walk upward while
the parent is still a stack container, and accept the outermost such
container if it contains a listing link and an image.
-/

/-- A qualifying card container per the spec wording. -/
def acceptsAsCard (e : AncestorElem) : Bool :=
  e.hasProductLink && e.hasImage && (hasFabkitClasses e || e.hasSurfaceRootDesc)

/-- The container-resolution heuristic as the spec words it. -/
def findItemContainerSpec (chain : List AncestorElem) : Option AncestorElem :=
  match (chain.take 10).find? acceptsAsCard with
  | some c => some c
  | none =>
    match chain.dropWhile (fun e => !(isStackMarker e)) with
    | [] => none
    | sc :: above =>
      let outer := (above.takeWhile isStackRoot).getLastD sc
      if outer.hasProductLink && outer.hasImage then some outer else none

/-!
Engine-level model. A Link models one seller-profile link: wrapper is the
textContent of its username sub-element (selector
.fabkit-Typography-ellipsisWrapper), none when that sub-element is absent;
chain is its ancestor chain (nearest first), which is static page
structure. A DomNode models a node handed to the mutation observer:
isElement is the nodeType check, attached is document.contains at
processing time, links are the seller links under the node in document
order (the querySelectorAll result of line 27 with the node as search
root; for the whole document the engine passes the document link list).
-/
structure Link where
  id : Nat
  wrapper : Option String
  chain : List AncestorElem
deriving DecidableEq, Repr

structure DomNode where
  id : Nat
  isElement : Bool
  attached : Bool
  links : List Link
deriving DecidableEq, Repr

structure MutationRecord where
  isChildList : Bool
  addedNodes : List DomNode
deriving DecidableEq, Repr

/-- The payload of the updateBadge message sent by the engine. -/
structure BadgeMsg where
  text : String
  color : String
deriving DecidableEq, Repr

/-!
The whole mutable state of the content script: the FabFilter fields
(lines 188 to 196), the ElementCache WeakSet, the two marker attributes
written into the page (modelled as the sets of element ids carrying them;
the engine only ever writes the value true), and the host timer state
(nextTimerId numbers setTimeout handles, liveTimers are handles that are
scheduled and neither cancelled nor fired yet; clearTimeout on an already
fired handle is a no-op).
-/
structure FabState where
  filteredUsernames : List String
  showBlockedCount : Bool
  blockedCount : Int
  processedLinks : Finset Nat
  pendingMutations : List DomNode
  mutationTimeout : Option Nat
  filteredAttr : Finset Nat
  processedAttr : Finset Nat
  nextTimerId : Nat
  liveTimers : List Nat
deriving DecidableEq

/-- FabFilter constructor (lines 188 to 196) on a fresh page with no marker
attributes and an idle scheduler. -/
def initialState : FabState :=
  { filteredUsernames := []
    showBlockedCount := false
    blockedCount := 0
    processedLinks := ∅
    pendingMutations := []
    mutationTimeout := none
    filteredAttr := ∅
    processedAttr := ∅
    nextTimerId := 0
    liveTimers := [] }

/-- Result of one ElementCache.findElementsInNode pass: the updated state,
the discovered link-container pairs in document order, and, as a pure
observation for the at-most-once analysis, the ids of the links on which
findItemContainer (line 33) was invoked during the pass. -/
structure ScanResult where
  state : FabState
  pairs : List (Link × Nat)
  invoked : List Nat
deriving DecidableEq

/-- ElementCache.findElementsInNode (lines 22 to 42) over the seller links
found under the search root: skip links already in the WeakSet; resolve a
container; keep the pair only when a container was found and it does not
yet carry data-filtered-processed, in which case the link is added to the
WeakSet and the container gets the attribute. -/
def findElementsInNode : FabState → List Link → ScanResult
  | st, [] => { state := st, pairs := [], invoked := [] }
  | st, l :: rest =>
    if l.id ∈ st.processedLinks then findElementsInNode st rest
    else
      match findItemContainer l.chain with
      | some parent =>
        if parent.id ∈ st.processedAttr then
          let r := findElementsInNode st rest
          { r with invoked := l.id :: r.invoked }
        else
          let st1 := { st with
            processedLinks := insert l.id st.processedLinks
            processedAttr := insert parent.id st.processedAttr }
          let r := findElementsInNode st1 rest
          { r with pairs := (l, parent.id) :: r.pairs, invoked := l.id :: r.invoked }
      | none =>
        let r := findElementsInNode st rest
        { r with invoked := l.id :: r.invoked }

/-- FabFilter.filterElement (lines 281 to 303): read the trimmed username
text; skip when the sub-element is absent or the text is empty; otherwise
compare membership in filteredUsernames with presence of the data-filtered
attribute and transition marker and count only on disagreement. -/
def filterElement (st : FabState) (pr : Link × Nat) : FabState :=
  match pr.1.wrapper with
  | none => st
  | some txt =>
    let username := jsTrim txt
    if username.isEmpty then st
    else
      let shouldFilter := List.contains st.filteredUsernames username
      let isCurrentlyFiltered : Bool := decide (pr.2 ∈ st.filteredAttr)
      if shouldFilter && !isCurrentlyFiltered then
        { st with
          filteredAttr := insert pr.2 st.filteredAttr
          blockedCount := st.blockedCount + 1 }
      else if !shouldFilter && isCurrentlyFiltered then
        { st with
          filteredAttr := st.filteredAttr.erase pr.2
          blockedCount := st.blockedCount - 1 }
      else st

/-- The elements.forEach loop applying filterElement to each discovered pair. -/
def runFilters (st : FabState) (pairs : List (Link × Nat)) : FabState :=
  pairs.foldl filterElement st

/-- FabFilter.updateBadge (lines 385 to 402): the single outbound message. -/
def updateBadge (st : FabState) : BadgeMsg :=
  if st.showBlockedCount then
    { text := if st.blockedCount > 0 then toString st.blockedCount else ""
      color := if st.blockedCount > 0 then "#f44336" else "#4CAF50" }
  else
    { text := "", color := "#4CAF50" }

/-- FabFilter.filterExistingContent (lines 275 to 279): one full scan of the
document link list, filtering each discovered pair, then one badge update.
Returns the new state and the badge messages emitted. -/
def filterExistingContent (doc : List Link) (st : FabState) : FabState × List BadgeMsg :=
  let r := findElementsInNode st doc
  let st2 := runFilters r.state r.pairs
  (st2, [updateBadge st2])

/-- FabFilter.resetAndRefilter (lines 360 to 383): zero the count, replace
the ElementCache (emptying the WeakSet), strip data-filtered and
data-filtered-processed from every element carrying either (the two
querySelectorAll loops jointly cover both attribute sets, and the engine
only ever writes the value true), then rescan the whole document. -/
def resetAndRefilter (doc : List Link) (st : FabState) : FabState × List BadgeMsg :=
  let st1 := { st with
    blockedCount := 0
    processedLinks := ∅
    filteredAttr := ∅
    processedAttr := ∅ }
  filterExistingContent doc st1

/-!
Model of the JavaScript values reaching the message handler. Numbers are
modelled as integers; this suffices for the validator, which only branches
on types and on string equality of the action field.
-/
inductive JSVal where
  | str : String → JSVal
  | num : Int → JSVal
  | boolean : Bool → JSVal
  | null : JSVal
  | undefined : JSVal
  | arr : List JSVal → JSVal
  | obj : List (String × JSVal) → JSVal

/-- Property access message.field: own property of a plain object, and the
undefined value for every other case in this model. -/
def getField : JSVal → String → JSVal
  | JSVal.obj fs, k =>
    match fs.lookup k with
    | some v => v
    | none => JSVal.undefined
  | _, _ => JSVal.undefined

/-- JavaScript truthiness test, negated: the values for which the check
of line 155 (not message) fires. -/
def isFalsy : JSVal → Bool
  | JSVal.null => true
  | JSVal.undefined => true
  | JSVal.boolean b => !b
  | JSVal.num n => n == 0
  | JSVal.str s => s.isEmpty
  | _ => false

/-- The typeof message equals the string object: plain objects, arrays and
the null value. -/
def typeofIsObject : JSVal → Bool
  | JSVal.obj _ => true
  | JSVal.arr _ => true
  | JSVal.null => true
  | _ => false

/-- Line 159: allowedActions.includes(message.action) with the two allowed
content-script actions; strict equality, so only those exact strings pass. -/
def allowedAction : JSVal → Bool
  | JSVal.str a => a == "updateFilters" || a == "updateShowCount"
  | _ => false

/-- A string JavaScript value. -/
def isStr : JSVal → Bool
  | JSVal.str _ => true
  | _ => false

/-- MessageValidator.validate (lines 151 to 184). Throws are modelled as
Except.error carrying the message of the thrown Error. -/
def validate (m : JSVal) : Except String Bool :=
  if isFalsy m || !(typeofIsObject m) then Except.error ("Invalid message format")
  else if !(allowedAction (getField m ("action"))) then Except.error ("Invalid action")
  else
    match getField m ("action") with
    | JSVal.str a =>
      if a == "updateFilters" then
        match getField m ("usernames") with
        | JSVal.arr vs =>
          if vs.all isStr then Except.ok true
          else Except.error ("Invalid username type")
        | _ => Except.error ("Invalid usernames format")
      else
        match getField m ("showCount") with
        | JSVal.boolean _ => Except.ok true
        | _ => Except.error ("Invalid showCount format")
    | _ => Except.error ("Invalid action")

/-- Extraction of a string array value, as used to build the new Set of
line 261; some exactly when the value is an array of strings. -/
def getStrArr : JSVal → Option (List String)
  | JSVal.arr vs =>
    vs.foldr
      (fun v acc =>
        match v, acc with
        | JSVal.str s, some l => some (s :: l)
        | _, _ => none)
      (some [])
  | _ => none

/-- FabFilter.handleMessage (lines 254 to 273). The surrounding try/catch
makes the handler total: a validation throw is caught and logged, leaving
the state untouched and emitting nothing, and no exception escapes. -/
def handleMessage (doc : List Link) (m : JSVal) (st : FabState) : FabState × List BadgeMsg :=
  match validate m with
  | Except.error _ => (st, [])
  | Except.ok _ =>
    match getField m ("action") with
    | JSVal.str a =>
      if a == "updateFilters" then
        match getStrArr (getField m ("usernames")) with
        | some us => resetAndRefilter doc { st with filteredUsernames := us }
        | none => (st, [])
      else if a == "updateShowCount" then
        match getField m ("showCount") with
        | JSVal.boolean b =>
          let st2 := { st with showBlockedCount := b }
          (st2, [updateBadge st2])
        | _ => (st, [])
      else (st, [])
    | _ => (st, [])

/-- A well-formed updateFilters message carrying the username list us. -/
def mkUpdateFilters (us : List String) : JSVal :=
  JSVal.obj [("action", JSVal.str ("updateFilters")),
             ("usernames", JSVal.arr (us.map JSVal.str))]

/-- A well-formed updateShowCount message carrying the flag b. -/
def mkUpdateShowCount (b : Bool) : JSVal :=
  JSVal.obj [("action", JSVal.str ("updateShowCount")),
             ("showCount", JSVal.boolean b)]

/-!
Mutation watcher (lines 305 to 358). The observer callback batches added
element nodes into the pending set and debounces processing: whenever the
pending set is non-empty it cancels the previously remembered timeout, if
that one is still live, and schedules a fresh one. The pending set has
JavaScript Set semantics: insertion order, deduplicated by node identity.
-/

/-- Adding one node to the pending Set (line 313). -/
def addPending (p : List DomNode) (n : DomNode) : List DomNode :=
  if p.any (fun m => m.id == n.id) then p else p ++ [n]

/-- The two nested loops of lines 308 to 316: childList mutations only,
element nodes only. -/
def collectAdded (p : List DomNode) (muts : List MutationRecord) : List DomNode :=
  muts.foldl
    (fun acc mr =>
      if mr.isChildList then
        mr.addedNodes.foldl
          (fun acc2 n => if n.isElement then addPending acc2 n else acc2) acc
      else acc)
    p

/-- One MutationObserver callback (lines 306 to 328): batch the added
nodes, then, if anything is pending, restart the debounce timer. -/
def observerCallback (muts : List MutationRecord) (st : FabState) : FabState :=
  let st1 := { st with pendingMutations := collectAdded st.pendingMutations muts }
  if st1.pendingMutations.length > 0 then
    let live1 :=
      match st1.mutationTimeout with
      | some t0 => st1.liveTimers.erase t0
      | none => st1.liveTimers
    { st1 with
      mutationTimeout := some st1.nextTimerId
      liveTimers := live1 ++ [st1.nextTimerId]
      nextTimerId := st1.nextTimerId + 1 }
  else st1

/-- Processing of one pending node inside the animation-frame callback
(lines 348 to 354): skip nodes no longer attached, otherwise discover and
filter under the node. -/
def processNode (st : FabState) (n : DomNode) : FabState :=
  if n.attached then
    let r := findElementsInNode st n.links
    runFilters r.state r.pairs
  else st

/-- FabFilter.processPendingMutations (lines 340 to 358): return early on
an empty pending set; otherwise snapshot and clear the set, process every
snapshot node, and send one badge update for the whole batch. -/
def processPendingMutations (st : FabState) : FabState × List BadgeMsg :=
  if st.pendingMutations.isEmpty then (st, [])
  else
    let nodes := st.pendingMutations
    let st1 := { st with pendingMutations := [] }
    let st2 := nodes.foldl processNode st1
    (st2, [updateBadge st2])

/-- Expiry of the debounce window for timer handle t: the handle fires only
if it is still live (was neither cancelled by clearTimeout nor fired
before), and firing runs processPendingMutations. -/
def fireTimer (t : Nat) (st : FabState) : FabState × List BadgeMsg :=
  if t ∈ st.liveTimers then
    processPendingMutations { st with liveTimers := st.liveTimers.erase t }
  else (st, [])

/-- States of the content script reachable from a fresh page through
completed engine operations: the storage load of initialize (lines 207 to
209), the initial full scan, observer callbacks, debounce-timer firings,
and inbound message handling. -/
inductive Reachable (doc : List Link) : FabState → Prop where
  | init : Reachable doc initialState
  | load : ∀ {s} (us : List String) (b : Bool), Reachable doc s →
      Reachable doc { s with filteredUsernames := us, showBlockedCount := b }
  | scan : ∀ {s}, Reachable doc s → Reachable doc (filterExistingContent doc s).1
  | observe : ∀ {s} (muts : List MutationRecord), Reachable doc s →
      Reachable doc (observerCallback muts s)
  | fire : ∀ {s} (t : Nat), Reachable doc s → Reachable doc (fireTimer t s).1
  | message : ∀ {s} (m : JSVal), Reachable doc s →
      Reachable doc (handleMessage doc m s).1

/-!
Specification-side definitions used to state the claims, worded from the
spec, to be compared against the translated code above.
-/

/-- Decision for one discovered pair on a freshly cleared page: the card
gets hidden exactly when the username sub-element exists and its trimmed
text is non-empty and a member of the filter set U. -/
def hiddenOnScan (uSet : List String) (pr : Link × Nat) : Bool :=
  match pr.1.wrapper with
  | some t => !(jsTrim t).isEmpty && List.contains uSet (jsTrim t)
  | none => false

/-- The product cards of a document: the link and container pairs that a
full scan from a fresh cache on a clean page discovers. -/
def discoveredPairs (doc : List Link) : List (Link × Nat) :=
  (findElementsInNode initialState doc).pairs

/-- The recognized inbound message shapes per the spec interface table:
an updateFilters message whose usernames field is an array of strings, or
an updateShowCount message whose showCount field is a boolean. -/
def recognizedShape (m : JSVal) : Bool :=
  match getField m ("action") with
  | JSVal.str a =>
    if a == "updateFilters" then
      match getField m ("usernames") with
      | JSVal.arr vs => vs.all isStr
      | _ => false
    else if a == "updateShowCount" then
      match getField m ("showCount") with
      | JSVal.boolean _ => true
      | _ => false
    else false
  | _ => false

/-- Badge text per the spec wording: the decimal count exactly when the
show-count display is enabled and the count is positive, else empty. -/
def badgeTextSpec (st : FabState) : String :=
  if st.showBlockedCount && decide (0 < st.blockedCount) then toString st.blockedCount
  else ""

/-- Badge color per the spec wording: the blocked color exactly when the
show-count display is enabled and the count is positive, else neutral. -/
def badgeColorSpec (st : FabState) : String :=
  if st.showBlockedCount && decide (0 < st.blockedCount) then "#f44336"
  else "#4CAF50"

/-- Discovery plus filtering over one node, without the attachment guard;
used to state that detached nodes are discarded by a batch pass. -/
def processNodeSpec (st : FabState) (n : DomNode) : FabState :=
  let r := findElementsInNode st n.links
  runFilters r.state r.pairs

/-- Folding a whole burst of observer callbacks, in arrival order. -/
def runCallbacks (batches : List (List MutationRecord)) (st : FabState) : FabState :=
  batches.foldl (fun s b => observerCallback b s) st

/-- A burst contains at least one childList mutation adding an element node. -/
def burstAddsElement (batches : List (List MutationRecord)) : Prop :=
  ∃ b ∈ batches, ∃ mr ∈ b, mr.isChildList = true ∧ ∃ n ∈ mr.addedNodes, n.isElement = true

/-- Scheduler invariant of the debounce loop: either no live debounce
timer, or exactly one, which is the remembered one and has work pending. -/
def timerInv (st : FabState) : Prop :=
  (st.liveTimers = [] ∧ st.pendingMutations = [])
  ∨ ∃ t, st.liveTimers = [t] ∧ st.mutationTimeout = some t ∧ st.pendingMutations ≠ []

/-- The count invariant: BlockedCount equals the number of elements
currently carrying the data-filtered attribute. -/
def countInv (st : FabState) : Prop :=
  st.blockedCount = (st.filteredAttr.card : Int)

/-!
Concrete fixtures for witnesses and counterexamples.
-/

/-- A one-element ancestor chain that strategy 1 accepts immediately. -/
def fixtureChain : List AncestorElem :=
  [{ id := 1, isDiv := true, classList := ["fabkit-Stack-root"],
     hasProductLink := true, hasImage := true, hasSurfaceRootDesc := false }]

/-- A seller link whose username text is the name bob. -/
def bobLink : Link := { id := 0, wrapper := some ("bob"), chain := fixtureChain }

/-- A seller link whose username text trims to the empty string. -/
def emptyNameLink : Link := { id := 0, wrapper := some ("  "), chain := fixtureChain }

/-- A seller link whose ancestor chain resolves to no container. -/
def orphanLink : Link := { id := 0, wrapper := some ("alice"), chain := [] }

/-- An attached element node with no seller links under it. -/
def plainNode : DomNode := { id := 0, isElement := true, attached := true, links := [] }

/-- A state whose filter set is the single name bob. -/
def bobFilterState : FabState := { initialState with filteredUsernames := ["bob"] }

/-- A state whose filter set is the single empty-string entry; such a set
can arrive through a valid updateFilters message, since the validator only
checks that every entry is a string. -/
def emptyNameState : FabState := { initialState with filteredUsernames := [""] }

/-- A one-batch mutation burst adding a single element node. -/
def burstFixture : List (List MutationRecord) :=
  [[{ isChildList := true, addedNodes := [plainNode] }]]

/-- An updateFilters message whose usernames field is not an array. -/
def badUsernamesMsg : JSVal :=
  JSVal.obj [("action", JSVal.str ("updateFilters")),
             ("usernames", JSVal.str ("x"))]

/-!
Theorems. First the container-resolution equivalences, then the scan-pass
lemmas, then the claim theorems.
-/

lemma strategy1_eq_find (chain : List AncestorElem) :
    ∀ n, strategy1 chain n = (chain.take n).find? acceptsAsCard := by
  induction chain with
  | nil => intro n; cases n <;> simp [strategy1]
  | cons c rest ih =>
    intro n
    cases n with
    | zero => simp [strategy1]
    | succ m =>
      simp only [strategy1, List.take, List.find?, acceptsAsCard]
      by_cases h1 : c.hasProductLink
      · by_cases h2 : c.hasImage
        · by_cases h3 : hasFabkitClasses c || c.hasSurfaceRootDesc
          · simp [h1, h2, h3]
          · simp [h1, h2, h3, ih m]
        · simp [h1, h2, ih m]
      · simp [h1, ih m]

lemma closestStack_eq (chain : List AncestorElem) :
    closestStack chain =
      match chain.dropWhile (fun e => !(isStackMarker e)) with
      | [] => none
      | c :: rest => some (c, rest) := by
  induction chain with
  | nil => rfl
  | cons c rest ih =>
    rw [closestStack, List.dropWhile_cons]
    by_cases h : isStackMarker c
    · rw [if_pos h]
      rw [show (!isStackMarker c) = false by rw [h]; rfl]
      rw [if_neg (by simp)]
    · rw [if_neg h, ih]
      rw [show (!isStackMarker c) = true by rw [Bool.eq_false_iff.mpr h]; rfl]
      rw [if_pos rfl]

lemma walkStack_eq (above : List AncestorElem) :
    ∀ c, walkStack c above = (above.takeWhile isStackRoot).getLastD c := by
  induction above with
  | nil => intro c; rfl
  | cons p rest ih =>
    intro c
    rw [walkStack, List.takeWhile_cons]
    by_cases h : isStackRoot p
    · rw [if_pos h, if_pos h, List.getLastD_cons, ih p]
    · rw [if_neg h, if_neg h]
      rfl

/-- Claim C4: container resolution walks up at most 10 ancestor levels
accepting the first ancestor with a listing link, an image, and a card or
surface class marker; otherwise it takes the nearest stack-marker
ancestor, walks outward through nested stack containers, and accepts the
outermost one when it has a listing link and an image; otherwise no
container. The translated code equals this statement of the heuristic. -/
theorem findItemContainer_spec_eq (chain : List AncestorElem) :
    findItemContainer chain = findItemContainerSpec chain := by
  unfold findItemContainer findItemContainerSpec
  rw [strategy1_eq_find chain 10, closestStack_eq]
  cases h : (chain.take 10).find? acceptsAsCard with
  | some c => rfl
  | none =>
    cases hd : chain.dropWhile (fun e => !(isStackMarker e)) with
    | nil => rfl
    | cons sc above =>
      have hw := walkStack_eq above sc
      simp only [hw]

lemma findElementsInNode_state_eq : ∀ (links : List Link) (st : FabState),
    (findElementsInNode st links).state =
      { st with
        processedLinks := (findElementsInNode st links).state.processedLinks
        processedAttr := (findElementsInNode st links).state.processedAttr } := by
  intro links
  induction links with
  | nil => intro st; rfl
  | cons l rest ih =>
    intro st
    rw [findElementsInNode]
    split
    · exact ih st
    · split
      · split
        · exact ih st
        · exact ih _
      · exact ih st

lemma scan_state_fields (links : List Link) (st : FabState) :
    (findElementsInNode st links).state.filteredUsernames = st.filteredUsernames
    ∧ (findElementsInNode st links).state.blockedCount = st.blockedCount
    ∧ (findElementsInNode st links).state.filteredAttr = st.filteredAttr
    ∧ (findElementsInNode st links).state.showBlockedCount = st.showBlockedCount
    ∧ (findElementsInNode st links).state.pendingMutations = st.pendingMutations
    ∧ (findElementsInNode st links).state.mutationTimeout = st.mutationTimeout
    ∧ (findElementsInNode st links).state.nextTimerId = st.nextTimerId
    ∧ (findElementsInNode st links).state.liveTimers = st.liveTimers := by
  rw [findElementsInNode_state_eq links st]
  exact ⟨rfl, rfl, rfl, rfl, rfl, rfl, rfl, rfl⟩

lemma invoked_not_processed : ∀ (links : List Link) (st : FabState) (x : Nat),
    x ∈ (findElementsInNode st links).invoked → x ∉ st.processedLinks := by
  intro links
  induction links with
  | nil => intro st x hx; exact absurd hx (List.not_mem_nil x)
  | cons l rest ih =>
    intro st x
    rw [findElementsInNode]
    split
    · exact ih st x
    · next hl =>
      split
      · split
        · intro hx
          rcases List.mem_cons.mp hx with h | h
          · exact h ▸ hl
          · exact ih st x h
        · intro hx
          rcases List.mem_cons.mp hx with h | h
          · exact h ▸ hl
          · intro hmem
            exact ih _ x h (Finset.mem_insert_of_mem hmem)
      · intro hx
        rcases List.mem_cons.mp hx with h | h
        · exact h ▸ hl
        · exact ih st x h

lemma processedLinks_mono : ∀ (links : List Link) (st : FabState),
    st.processedLinks ⊆ (findElementsInNode st links).state.processedLinks := by
  intro links
  induction links with
  | nil => intro st; exact Finset.Subset.refl _
  | cons l rest ih =>
    intro st
    rw [findElementsInNode]
    split
    · exact ih st
    · split
      · rename_i parent hpar
        split
        · exact ih st
        · exact Finset.Subset.trans (Finset.subset_insert _ _)
            (ih { st with
              processedLinks := insert l.id st.processedLinks
              processedAttr := insert parent.id st.processedAttr })
      · exact ih st

lemma pairs_processed : ∀ (links : List Link) (st : FabState) (l : Link) (p : Nat),
    (l, p) ∈ (findElementsInNode st links).pairs →
    l.id ∈ (findElementsInNode st links).state.processedLinks := by
  intro links
  induction links with
  | nil => intro st l p hp; exact absurd hp (List.not_mem_nil _)
  | cons l0 rest ih =>
    intro st l p
    rw [findElementsInNode]
    split
    · exact ih st l p
    · split
      · split
        · exact ih st l p
        · intro hp
          rcases List.mem_cons.mp hp with h | h
          · have : l = l0 := congrArg Prod.fst h
            exact this ▸ processedLinks_mono rest _ (Finset.mem_insert_self _ _)
          · exact ih _ l p h
      · exact ih st l p

lemma pairs_parents_fresh : ∀ (links : List Link) (st : FabState),
    ((findElementsInNode st links).pairs.map Prod.snd).Nodup
    ∧ ∀ q ∈ (findElementsInNode st links).pairs.map Prod.snd, q ∉ st.processedAttr := by
  intro links
  induction links with
  | nil =>
    intro st
    exact ⟨List.nodup_nil, fun q hq => absurd hq (List.not_mem_nil q)⟩
  | cons l rest ih =>
    intro st
    rw [findElementsInNode]
    split
    · exact ih st
    · split
      · rename_i parent hpar
        split
        · exact ih st
        · next hfresh =>
          have ih1 := ih { st with
            processedLinks := insert l.id st.processedLinks
            processedAttr := insert parent.id st.processedAttr }
          constructor
          · refine List.nodup_cons.mpr ⟨?_, ih1.1⟩
            intro hmem
            exact ih1.2 parent.id hmem (Finset.mem_insert_self _ _)
          · intro q hq
            rcases List.mem_cons.mp hq with h | h
            · exact h ▸ hfresh
            · intro hmem
              exact ih1.2 q h (Finset.mem_insert_of_mem hmem)
      · exact ih st

lemma pairs_congr : ∀ (links : List Link) (st st' : FabState),
    st.processedLinks = st'.processedLinks → st.processedAttr = st'.processedAttr →
    (findElementsInNode st links).pairs = (findElementsInNode st' links).pairs := by
  intro links
  induction links with
  | nil => intro st st' h1 h2; rfl
  | cons l rest ih =>
    intro st st' h1 h2
    rw [findElementsInNode, findElementsInNode, h1, h2]
    split
    · exact ih st st' h1 h2
    · split
      · rename_i parent hpar
        split
        · exact ih st st' h1 h2
        · have := ih
            { st with
              processedLinks := insert l.id st.processedLinks
              processedAttr := insert parent.id st.processedAttr }
            { st' with
              processedLinks := insert l.id st'.processedLinks
              processedAttr := insert parent.id st'.processedAttr }
            (by rw [h1]) (by rw [h2])
          rw [h1, h2] at this
          exact congrArg (fun x => (l, parent.id) :: x) this
      · exact ih st st' h1 h2

/-- Claim C5, amended: the seen markers make re-scanning one-way after
success. Once a scan pass has resolved a container for a seller link and
claimed it (the pair was produced by findElementsInNode), the link sits in
the processed WeakSet of the resulting state and no later scan pass
invokes the container-resolution heuristic on that link again; no reset in
between. Links whose resolution failed, or whose container was already
claimed, are not marked and can be re-examined by later passes. -/
theorem heuristic_once_after_success (st : FabState) (links links2 : List Link)
    (l : Link) (p : Nat)
    (h : (l, p) ∈ (findElementsInNode st links).pairs) :
    l.id ∉ (findElementsInNode (findElementsInNode st links).state links2).invoked := by
  intro hmem
  exact invoked_not_processed links2 _ l.id hmem (pairs_processed links st l p h)

/-- Witness for the amended claim C5, on a link that does resolve. -/
theorem heuristic_once_after_success_witness :
    ((bobLink, 1) ∈ (findElementsInNode initialState [bobLink]).pairs)
    ∧ bobLink.id ∉
        (findElementsInNode (findElementsInNode initialState [bobLink]).state
          [bobLink]).invoked :=
  ⟨by decide,
    heuristic_once_after_success initialState [bobLink] [bobLink] bobLink 1 (by decide)⟩

/-- Claim C5 as stated is false on the code: a link whose container
resolution fails is never added to the WeakSet (line 36 runs only when a
fresh container was found), so a second scan pass covering the same link,
as happens when a mutation batch re-adds its subtree, invokes the
heuristic on it a second time although no full reset occurred: across two
passes over link 0 the heuristic runs twice. -/
theorem heuristic_reapplied_cex :
    ((findElementsInNode initialState [orphanLink]).invoked
      ++ (findElementsInNode (findElementsInNode initialState [orphanLink]).state
            [orphanLink]).invoked).count 0 = 2 := by decide

/-- Claim C3: filterElement is a no-op on a card whose hidden marker
already agrees with the membership decision; it is idempotent (a second
application in the same filter-set state changes nothing further); and it
either leaves the state untouched or moves BlockedCount by exactly one
together with the matching marker transition. -/
theorem filterElement_idempotent (st : FabState) (pr : Link × Nat) :
    (∀ t, pr.1.wrapper = some t →
        decide (pr.2 ∈ st.filteredAttr) = List.contains st.filteredUsernames (jsTrim t) →
        filterElement st pr = st)
    ∧ filterElement (filterElement st pr) pr = filterElement st pr
    ∧ (filterElement st pr = st
       ∨ ((filterElement st pr).blockedCount = st.blockedCount + 1
            ∧ pr.2 ∉ st.filteredAttr ∧ pr.2 ∈ (filterElement st pr).filteredAttr)
       ∨ ((filterElement st pr).blockedCount = st.blockedCount - 1
            ∧ pr.2 ∈ st.filteredAttr ∧ pr.2 ∉ (filterElement st pr).filteredAttr)) := by
  cases hw : pr.1.wrapper with
  | none =>
    refine ⟨fun t ht _ => (by cases ht), ?_, Or.inl ?_⟩
    · simp [filterElement, hw]
    · simp [filterElement, hw]
  | some t =>
    by_cases he : (jsTrim t).isEmpty
    · refine ⟨fun t2 ht2 _ => (by cases ht2; simp [filterElement, hw, he]), ?_, Or.inl ?_⟩
      · simp [filterElement, hw, he]
      · simp [filterElement, hw, he]
    · have he2 : (jsTrim t).isEmpty = false := Bool.eq_false_iff.mpr he
      by_cases hs : jsTrim t ∈ st.filteredUsernames
      · by_cases hc : pr.2 ∈ st.filteredAttr
        · refine ⟨fun t2 ht2 _ => (by cases ht2; simp [filterElement, hw, he2, hs, hc]), ?_,
            Or.inl ?_⟩
          · simp [filterElement, hw, he2, hs, hc]
          · simp [filterElement, hw, he2, hs, hc]
        · refine ⟨fun t2 ht2 hagree => ?_, ?_, Or.inr (Or.inl ?_)⟩
          · cases ht2
            simp [hs, hc] at hagree
          · simp [filterElement, hw, he2, hs, hc]
          · refine ⟨?_, hc, ?_⟩
            · simp [filterElement, hw, he2, hs, hc]
            · simp [filterElement, hw, he2, hs, hc]
      · by_cases hc : pr.2 ∈ st.filteredAttr
        · refine ⟨fun t2 ht2 hagree => ?_, ?_, Or.inr (Or.inr ?_)⟩
          · cases ht2
            simp [hs, hc] at hagree
          · simp [filterElement, hw, he2, hs, hc]
          · refine ⟨?_, hc, ?_⟩
            · simp [filterElement, hw, he2, hs, hc]
            · simp [filterElement, hw, he2, hs, hc]
        · refine ⟨fun t2 ht2 _ => (by cases ht2; simp [filterElement, hw, he2, hs, hc]), ?_,
            Or.inl ?_⟩
          · simp [filterElement, hw, he2, hs, hc]
          · simp [filterElement, hw, he2, hs, hc]

/-- Witness for claim C3 at a concrete card in the agreeing state. -/
theorem filterElement_idempotent_witness :
    filterElement initialState (bobLink, 5) = initialState :=
  (filterElement_idempotent initialState (bobLink, 5)).1 ("bob") rfl (by decide)

/-- Claim C1, amended with a non-empty proviso: for a card whose username
sub-element text trims to a NON-EMPTY string s, after filterElement the
card carries the data-filtered marker exactly when s is in the filter set.
For an empty trimmed username the code skips the card instead (line 288),
which falsifies the unrestricted claim; see the counterexample. -/
theorem filterElement_hidden_iff (st : FabState) (l : Link) (p : Nat) (t : String)
    (hw : l.wrapper = some t) (hne : (jsTrim t).isEmpty = false) :
    (p ∈ (filterElement st (l, p)).filteredAttr) ↔
      List.contains st.filteredUsernames (jsTrim t) = true := by
  by_cases hs : jsTrim t ∈ st.filteredUsernames
  · by_cases hc : p ∈ st.filteredAttr
    · simp [filterElement, hw, hne, hs, hc]
    · simp [filterElement, hw, hne, hs, hc]
  · by_cases hc : p ∈ st.filteredAttr
    · simp [filterElement, hw, hne, hs, hc]
    · simp [filterElement, hw, hne, hs, hc]

/-- Witness for the amended claim C1 on a concrete card and filter set. -/
theorem filterElement_hidden_iff_witness :
    (5 ∈ (filterElement bobFilterState (bobLink, 5)).filteredAttr)
      ↔ List.contains bobFilterState.filteredUsernames (jsTrim ("bob")) = true :=
  filterElement_hidden_iff bobFilterState bobLink 5 ("bob") rfl (by decide)

/-- Claim C1 as stated is false on the code: with filter set containing
the empty string and a card whose username sub-element text trims to the
empty string, the scan leaves the card unhidden although its trimmed
username is a member of the set. -/
theorem filterElement_empty_username_cex :
    ¬ ((0 ∈ (filterElement emptyNameState (emptyNameLink, 0)).filteredAttr)
        ↔ List.contains emptyNameState.filteredUsernames (jsTrim ("  ")) = true) := by
  decide

/-- Claim C7: the badge message carries the decimal count as text exactly
when show-count is enabled and the count is positive, and the empty string
otherwise; and the blocked color exactly when show-count is enabled and
the count is positive, and the neutral color otherwise. -/
theorem updateBadge_spec (st : FabState) :
    updateBadge st = { text := badgeTextSpec st, color := badgeColorSpec st } := by
  unfold updateBadge badgeTextSpec badgeColorSpec
  by_cases h : st.showBlockedCount
  · by_cases h2 : 0 < st.blockedCount
    · simp [h, h2]
    · simp [h, h2]
  · simp [h]

/-- Claim C9: handling an updateShowCount message sets the display toggle,
recomputes the badge once, and leaves every piece of filter state
untouched: filter set, BlockedCount, pending mutations, and both marker
attribute sets are unchanged. -/
theorem updateShowCount_frame (doc : List Link) (st : FabState) (b : Bool) :
    handleMessage doc (mkUpdateShowCount b) st =
      ({ st with showBlockedCount := b }, [updateBadge { st with showBlockedCount := b }])
    ∧ (handleMessage doc (mkUpdateShowCount b) st).1.filteredUsernames = st.filteredUsernames
    ∧ (handleMessage doc (mkUpdateShowCount b) st).1.blockedCount = st.blockedCount
    ∧ (handleMessage doc (mkUpdateShowCount b) st).1.pendingMutations = st.pendingMutations
    ∧ (handleMessage doc (mkUpdateShowCount b) st).1.filteredAttr = st.filteredAttr
    ∧ (handleMessage doc (mkUpdateShowCount b) st).1.processedAttr = st.processedAttr
    ∧ (handleMessage doc (mkUpdateShowCount b) st).1.processedLinks = st.processedLinks := by
  refine ⟨?_, ?_, ?_, ?_, ?_, ?_, ?_⟩ <;> rfl

/-- Claim C6: an inbound message that does not match a recognized shape,
in particular an updateFilters message whose usernames field is not an
array of strings, or any message whose action is not one of the two
recognized ones, is rejected by the validator; the handler catches the
throw (so nothing escapes), logs, and returns with the filter set,
BlockedCount, all markers and the pending set untouched, emitting no
badge message and performing no reset. -/
theorem handleMessage_rejects_invalid (doc : List Link) (st : FabState) (m : JSVal)
    (hrec : recognizedShape m = false) :
    handleMessage doc m st = (st, []) := by
  cases m with
  | str s => simp [handleMessage, validate, isFalsy, typeofIsObject]
  | num n => simp [handleMessage, validate, isFalsy, typeofIsObject]
  | boolean bb => simp [handleMessage, validate, isFalsy, typeofIsObject]
  | null => simp [handleMessage, validate, isFalsy]
  | undefined => simp [handleMessage, validate, isFalsy]
  | arr vs => simp [handleMessage, validate, isFalsy, typeofIsObject, getField, allowedAction]
  | obj fs =>
    unfold recognizedShape at hrec
    cases hA : getField (JSVal.obj fs) ("action") with
    | str a =>
      simp only [hA] at hrec
      by_cases hf : a == "updateFilters"
      · simp only [hf, if_true] at hrec
        cases hU : getField (JSVal.obj fs) ("usernames") with
        | arr vs =>
          simp only [hU] at hrec
          simp [handleMessage, validate, isFalsy, typeofIsObject, allowedAction, hA, hf, hU,
            hrec]
        | str s2 =>
          simp [handleMessage, validate, isFalsy, typeofIsObject, allowedAction, hA, hf, hU]
        | num n2 =>
          simp [handleMessage, validate, isFalsy, typeofIsObject, allowedAction, hA, hf, hU]
        | boolean b2 =>
          simp [handleMessage, validate, isFalsy, typeofIsObject, allowedAction, hA, hf, hU]
        | null =>
          simp [handleMessage, validate, isFalsy, typeofIsObject, allowedAction, hA, hf, hU]
        | undefined =>
          simp [handleMessage, validate, isFalsy, typeofIsObject, allowedAction, hA, hf, hU]
        | obj fs2 =>
          simp [handleMessage, validate, isFalsy, typeofIsObject, allowedAction, hA, hf, hU]
      · by_cases hsc : a == "updateShowCount"
        · simp only [hf, if_false, Bool.false_eq_true, hsc, if_true] at hrec
          cases hB : getField (JSVal.obj fs) ("showCount") with
          | boolean b2 =>
            simp only [hB] at hrec
            cases hrec
          | str s2 =>
            simp [handleMessage, validate, isFalsy, typeofIsObject, allowedAction, hA, hf,
              hsc, hB]
          | num n2 =>
            simp [handleMessage, validate, isFalsy, typeofIsObject, allowedAction, hA, hf,
              hsc, hB]
          | null =>
            simp [handleMessage, validate, isFalsy, typeofIsObject, allowedAction, hA, hf,
              hsc, hB]
          | undefined =>
            simp [handleMessage, validate, isFalsy, typeofIsObject, allowedAction, hA, hf,
              hsc, hB]
          | arr vs2 =>
            simp [handleMessage, validate, isFalsy, typeofIsObject, allowedAction, hA, hf,
              hsc, hB]
          | obj fs2 =>
            simp [handleMessage, validate, isFalsy, typeofIsObject, allowedAction, hA, hf,
              hsc, hB]
        · simp [handleMessage, validate, isFalsy, typeofIsObject, allowedAction, hA, hf, hsc]
    | num n2 => simp [handleMessage, validate, isFalsy, typeofIsObject, allowedAction, hA]
    | boolean b2 => simp [handleMessage, validate, isFalsy, typeofIsObject, allowedAction, hA]
    | null => simp [handleMessage, validate, isFalsy, typeofIsObject, allowedAction, hA]
    | undefined => simp [handleMessage, validate, isFalsy, typeofIsObject, allowedAction, hA]
    | arr vs2 => simp [handleMessage, validate, isFalsy, typeofIsObject, allowedAction, hA]
    | obj fs2 => simp [handleMessage, validate, isFalsy, typeofIsObject, allowedAction, hA]

/-- Witness for claim C6: a concrete updateFilters message whose usernames
field is a string rather than an array is rejected with no state change. -/
theorem handleMessage_rejects_invalid_witness :
    handleMessage [] badUsernamesMsg initialState = (initialState, []) :=
  handleMessage_rejects_invalid [] initialState badUsernamesMsg (by decide)

lemma filterElement_frame (st : FabState) (pr : Link × Nat) :
    (filterElement st pr).filteredUsernames = st.filteredUsernames
    ∧ (filterElement st pr).showBlockedCount = st.showBlockedCount
    ∧ (filterElement st pr).processedLinks = st.processedLinks
    ∧ (filterElement st pr).processedAttr = st.processedAttr
    ∧ (filterElement st pr).pendingMutations = st.pendingMutations
    ∧ (filterElement st pr).mutationTimeout = st.mutationTimeout
    ∧ (filterElement st pr).nextTimerId = st.nextTimerId
    ∧ (filterElement st pr).liveTimers = st.liveTimers := by
  cases hw : pr.1.wrapper with
  | none => simp [filterElement, hw]
  | some t =>
    by_cases he : (jsTrim t).isEmpty
    · simp [filterElement, hw, he]
    · have he2 : (jsTrim t).isEmpty = false := Bool.eq_false_iff.mpr he
      by_cases hs : jsTrim t ∈ st.filteredUsernames
      · by_cases hc : pr.2 ∈ st.filteredAttr
        · simp [filterElement, hw, he2, hs, hc]
        · simp [filterElement, hw, he2, hs, hc]
      · by_cases hc : pr.2 ∈ st.filteredAttr
        · simp [filterElement, hw, he2, hs, hc]
        · simp [filterElement, hw, he2, hs, hc]

lemma runFilters_frame : ∀ (pairs : List (Link × Nat)) (st : FabState),
    (runFilters st pairs).filteredUsernames = st.filteredUsernames
    ∧ (runFilters st pairs).showBlockedCount = st.showBlockedCount
    ∧ (runFilters st pairs).processedLinks = st.processedLinks
    ∧ (runFilters st pairs).processedAttr = st.processedAttr
    ∧ (runFilters st pairs).pendingMutations = st.pendingMutations
    ∧ (runFilters st pairs).mutationTimeout = st.mutationTimeout
    ∧ (runFilters st pairs).nextTimerId = st.nextTimerId
    ∧ (runFilters st pairs).liveTimers = st.liveTimers := by
  intro pairs
  induction pairs with
  | nil => intro st; exact ⟨rfl, rfl, rfl, rfl, rfl, rfl, rfl, rfl⟩
  | cons pr rest ih =>
    intro st
    have h1 := filterElement_frame st pr
    have h2 := ih (filterElement st pr)
    exact ⟨h2.1.trans h1.1, h2.2.1.trans h1.2.1, h2.2.2.1.trans h1.2.2.1,
      h2.2.2.2.1.trans h1.2.2.2.1, h2.2.2.2.2.1.trans h1.2.2.2.2.1,
      h2.2.2.2.2.2.1.trans h1.2.2.2.2.2.1, h2.2.2.2.2.2.2.1.trans h1.2.2.2.2.2.2.1,
      h2.2.2.2.2.2.2.2.trans h1.2.2.2.2.2.2.2⟩

lemma filterElement_fresh (st : FabState) (pr : Link × Nat)
    (hfa : pr.2 ∉ st.filteredAttr) :
    filterElement st pr =
      if hiddenOnScan st.filteredUsernames pr then
        { st with
          filteredAttr := insert pr.2 st.filteredAttr
          blockedCount := st.blockedCount + 1 }
      else st := by
  cases hw : pr.1.wrapper with
  | none => simp [filterElement, hiddenOnScan, hw]
  | some t =>
    by_cases he : (jsTrim t).isEmpty
    · simp [filterElement, hiddenOnScan, hw, he]
    · have he2 : (jsTrim t).isEmpty = false := Bool.eq_false_iff.mpr he
      by_cases hs : jsTrim t ∈ st.filteredUsernames
      · simp [filterElement, hiddenOnScan, hw, he2, hs, hfa]
      · simp [filterElement, hiddenOnScan, hw, he2, hs, hfa]

lemma runFilters_count : ∀ (pairs : List (Link × Nat)) (st : FabState),
    ((pairs.map Prod.snd).Nodup) →
    (∀ q ∈ pairs.map Prod.snd, q ∉ st.filteredAttr) →
    (runFilters st pairs).blockedCount =
      st.blockedCount + (pairs.countP (hiddenOnScan st.filteredUsernames) : Int) := by
  intro pairs
  induction pairs with
  | nil => intro st _ _; simp [runFilters]
  | cons pr rest ih =>
    intro st hnd hfresh
    have hfa : pr.2 ∉ st.filteredAttr := hfresh pr.2 (by simp)
    have hstep : runFilters st (pr :: rest) = runFilters (filterElement st pr) rest := rfl
    rw [hstep, filterElement_fresh st pr hfa]
    have hnd2 : (pr.2 :: rest.map Prod.snd).Nodup := by simpa using hnd
    rcases List.nodup_cons.mp hnd2 with ⟨hhd, htl⟩
    by_cases hh : hiddenOnScan st.filteredUsernames pr
    · rw [if_pos hh]
      have ih2 := ih
        { st with
          filteredAttr := insert pr.2 st.filteredAttr
          blockedCount := st.blockedCount + 1 }
        htl
        (by
          intro q hq
          simp only [Finset.mem_insert]
          rintro (h | h)
          · exact hhd (h ▸ hq)
          · exact hfresh q (List.mem_cons_of_mem _ hq) h)
      rw [ih2, List.countP_cons]
      simp [hh]
      omega
    · rw [if_neg hh]
      have ih2 := ih st htl
        (fun q hq => hfresh q (List.mem_cons_of_mem _ hq))
      rw [ih2, List.countP_cons]
      simp [hh]

lemma getField_mkUF_action (us : List String) :
    getField (mkUpdateFilters us) ("action") = JSVal.str ("updateFilters") := rfl

lemma getField_mkUF_usernames (us : List String) :
    getField (mkUpdateFilters us) ("usernames") = JSVal.arr (us.map JSVal.str) := rfl

lemma allStr_map (us : List String) : (us.map JSVal.str).all isStr = true := by
  induction us with
  | nil => rfl
  | cons a l ih => simp [List.all_cons, isStr, ih]

lemma getStrArr_map (us : List String) :
    getStrArr (JSVal.arr (us.map JSVal.str)) = some us := by
  induction us with
  | nil => rfl
  | cons a l ih =>
    unfold getStrArr at ih ⊢
    have h2 :
        List.foldr
          (fun v acc =>
            match v, acc with
            | JSVal.str s, some l2 => some (s :: l2)
            | _, _ => none)
          (some []) (l.map JSVal.str) = some l := ih
    simp only [List.map_cons, List.foldr_cons]
    rw [h2]

lemma validate_mkUpdateFilters (us : List String) :
    validate (mkUpdateFilters us) = Except.ok true := by
  show (if (us.map JSVal.str).all isStr then Except.ok true
        else Except.error ("Invalid username type")) = Except.ok true
  rw [allStr_map]
  rfl

lemma handleMessage_updateFilters (doc : List Link) (st : FabState) (us : List String) :
    handleMessage doc (mkUpdateFilters us) st =
      resetAndRefilter doc { st with filteredUsernames := us } := by
  unfold handleMessage
  rw [validate_mkUpdateFilters us]
  simp only [getField_mkUF_action, getField_mkUF_usernames, getStrArr_map]
  rfl

lemma filterExistingContent_count (doc : List Link) (A : FabState)
    (hfa : A.filteredAttr = ∅) (hpl : A.processedLinks = ∅) (hpa : A.processedAttr = ∅) :
    (filterExistingContent doc A).1.blockedCount
      = A.blockedCount + ((discoveredPairs doc).countP (hiddenOnScan A.filteredUsernames) : Int)
    ∧ (filterExistingContent doc A).1.filteredUsernames = A.filteredUsernames := by
  constructor
  · have hnd := (pairs_parents_fresh doc A).1
    have hfa2 : ∀ q ∈ (findElementsInNode A doc).pairs.map Prod.snd,
        q ∉ (findElementsInNode A doc).state.filteredAttr := by
      intro q _
      rw [(scan_state_fields doc A).2.2.1, hfa]
      exact Finset.not_mem_empty q
    have hcnt := runFilters_count (findElementsInNode A doc).pairs
      (findElementsInNode A doc).state hnd hfa2
    refine hcnt.trans ?_
    rw [(scan_state_fields doc A).2.1, (scan_state_fields doc A).1,
      pairs_congr doc A initialState (by rw [hpl]; rfl) (by rw [hpa]; rfl)]
    rfl
  · exact (runFilters_frame _ _).1.trans (scan_state_fields doc A).1

/-- Claim C2, amended with the non-empty username proviso: a filter-list
update replaces the set wholesale and performs the full-reset-and-rescan
path, after which BlockedCount equals the number of discovered cards whose
trimmed seller username is non-empty and a member of the new set. Cards
whose username text trims to the empty string are skipped by the scan even
when the empty string is in the set; see the counterexample. -/
theorem updateFilters_roundtrip (doc : List Link) (st : FabState) (us : List String) :
    handleMessage doc (mkUpdateFilters us) st
      = resetAndRefilter doc { st with filteredUsernames := us }
    ∧ (handleMessage doc (mkUpdateFilters us) st).1.filteredUsernames = us
    ∧ (handleMessage doc (mkUpdateFilters us) st).1.blockedCount
        = ((discoveredPairs doc).countP (hiddenOnScan us) : Int) := by
  have hmsg := handleMessage_updateFilters doc st us
  have hc := filterExistingContent_count doc
    ({ st with
        filteredUsernames := us
        blockedCount := 0
        processedLinks := ∅
        filteredAttr := ∅
        processedAttr := ∅ })
    rfl rfl rfl
  refine ⟨hmsg, ?_, ?_⟩
  · rw [hmsg]
    exact hc.2
  · rw [hmsg]
    exact hc.1.trans (by simp)

/-- Claim C2 as stated is false on the code: updating the filter list to
the set holding the empty string, on a document with one card whose
username text trims to the empty string, leaves BlockedCount at 0 although
the number of cards whose trimmed seller username lies in the set is 1. -/
theorem updateFilters_count_cex :
    (handleMessage [emptyNameLink] (mkUpdateFilters [""]) initialState).1.blockedCount = 0
    ∧ ((discoveredPairs [emptyNameLink]).countP
        (fun pr =>
          match pr.1.wrapper with
          | some t => List.contains ([""]) (jsTrim t)
          | none => false)) = 1 := by
  refine ⟨?_, ?_⟩ <;> decide

lemma addPending_length (p : List DomNode) (n : DomNode) :
    p.length ≤ (addPending p n).length := by
  unfold addPending
  split
  · exact le_refl _
  · simp

lemma addPending_ne_nil (p : List DomNode) (n : DomNode) : addPending p n ≠ [] := by
  unfold addPending
  split
  · next hany =>
    intro he
    rw [he] at hany
    simp at hany
  · simp

lemma innerFold_length (ns : List DomNode) : ∀ (p : List DomNode),
    p.length ≤
      (ns.foldl (fun acc2 n => if n.isElement then addPending acc2 n else acc2) p).length := by
  induction ns with
  | nil => intro p; exact le_refl _
  | cons n rest ih =>
    intro p
    have hstep : p.length ≤ (if n.isElement then addPending p n else p).length := by
      split
      · exact addPending_length p n
      · exact le_refl _
    exact le_trans hstep (ih _)

lemma innerFold_ne_nil (ns : List DomNode) : ∀ (p : List DomNode) (n : DomNode),
    n ∈ ns → n.isElement = true →
    (ns.foldl (fun acc2 n2 => if n2.isElement then addPending acc2 n2 else acc2) p) ≠ [] := by
  induction ns with
  | nil => intro p n h _; exact absurd h (List.not_mem_nil n)
  | cons m rest ih =>
    intro p n hmem hel
    rcases List.mem_cons.mp hmem with h | h
    · have hel2 : m.isElement = true := h ▸ hel
      show (rest.foldl (fun acc2 n2 => if n2.isElement then addPending acc2 n2 else acc2)
        (if m.isElement then addPending p m else p)) ≠ []
      rw [if_pos hel2]
      have h2 : 0 < (addPending p m).length :=
        List.length_pos.mpr (addPending_ne_nil p m)
      exact List.length_pos.mp (lt_of_lt_of_le h2 (innerFold_length rest _))
    · exact ih _ n h hel

lemma collectAdded_length (muts : List MutationRecord) : ∀ (p : List DomNode),
    p.length ≤ (collectAdded p muts).length := by
  induction muts with
  | nil => intro p; exact le_refl _
  | cons mr rest ih =>
    intro p
    have hstep : p.length ≤
        (if mr.isChildList then
          mr.addedNodes.foldl (fun acc2 n => if n.isElement then addPending acc2 n else acc2) p
        else p).length := by
      split
      · exact innerFold_length mr.addedNodes p
      · exact le_refl _
    exact le_trans hstep (ih _)

lemma collectAdded_ne_nil (muts : List MutationRecord) (p : List DomNode) (h : p ≠ []) :
    collectAdded p muts ≠ [] := by
  have h1 := collectAdded_length muts p
  have h2 : 0 < p.length := List.length_pos.mpr h
  exact List.length_pos.mp (lt_of_lt_of_le h2 h1)

lemma collectAdded_trigger (muts : List MutationRecord) : ∀ (p : List DomNode),
    (∃ mr ∈ muts, mr.isChildList = true ∧ ∃ n ∈ mr.addedNodes, n.isElement = true) →
    collectAdded p muts ≠ [] := by
  induction muts with
  | nil =>
    rintro p ⟨mr, hmr, _⟩
    exact absurd hmr (List.not_mem_nil mr)
  | cons mr0 rest ih =>
    rintro p ⟨mr, hmr, hcl, n, hn, hel⟩
    rcases List.mem_cons.mp hmr with h | h
    · show collectAdded
        (if mr0.isChildList then
          mr0.addedNodes.foldl (fun acc2 n2 => if n2.isElement then addPending acc2 n2 else acc2) p
        else p) rest ≠ []
      rw [show mr0 = mr from h.symm, if_pos hcl]
      exact collectAdded_ne_nil rest _ (innerFold_ne_nil mr.addedNodes p n hn hel)
    · exact ih _ ⟨mr, h, hcl, n, hn, hel⟩

lemma observerCallback_eq (muts : List MutationRecord) (st : FabState) :
    observerCallback muts st =
      if (collectAdded st.pendingMutations muts).length > 0 then
        { st with
          pendingMutations := collectAdded st.pendingMutations muts
          mutationTimeout := some st.nextTimerId
          liveTimers :=
            (match st.mutationTimeout with
              | some t0 => st.liveTimers.erase t0
              | none => st.liveTimers) ++ [st.nextTimerId]
          nextTimerId := st.nextTimerId + 1 }
      else { st with pendingMutations := collectAdded st.pendingMutations muts } := rfl

lemma observerCallback_timerInv (muts : List MutationRecord) (st : FabState)
    (h : timerInv st) : timerInv (observerCallback muts st) := by
  rw [observerCallback_eq]
  split
  · next hlen =>
    right
    refine ⟨st.nextTimerId, ?_, rfl, ?_⟩
    · rcases h with ⟨hl, _⟩ | ⟨t, hl, hmt, _⟩
      · cases hmt2 : st.mutationTimeout with
        | none => simp [hmt2, hl]
        | some t0 => simp [hmt2, hl]
      · simp [hmt, hl]
    · exact List.length_pos.mp hlen
  · next hlen =>
    have hp2 : collectAdded st.pendingMutations muts = [] := by
      have : (collectAdded st.pendingMutations muts).length = 0 := by omega
      exact List.length_eq_zero.mp this
    left
    refine ⟨?_, hp2⟩
    rcases h with ⟨hl, _⟩ | ⟨t, _, _, hp⟩
    · exact hl
    · exact absurd hp2 (collectAdded_ne_nil muts _ hp)

lemma observerCallback_pending_mono (muts : List MutationRecord) (st : FabState)
    (h : st.pendingMutations ≠ []) :
    (observerCallback muts st).pendingMutations ≠ [] := by
  rw [observerCallback_eq]
  split
  · exact collectAdded_ne_nil muts _ h
  · exact collectAdded_ne_nil muts _ h

lemma runCallbacks_timerInv : ∀ (batches : List (List MutationRecord)) (st : FabState),
    timerInv st → timerInv (runCallbacks batches st) := by
  intro batches
  induction batches with
  | nil => intro st h; exact h
  | cons b rest ih =>
    intro st h
    exact ih (observerCallback b st) (observerCallback_timerInv b st h)

lemma runCallbacks_pending_ne : ∀ (batches : List (List MutationRecord)) (st : FabState),
    (burstAddsElement batches ∨ st.pendingMutations ≠ []) →
    (runCallbacks batches st).pendingMutations ≠ [] := by
  intro batches
  induction batches with
  | nil =>
    rintro st (⟨b, hb, _⟩ | h)
    · exact absurd hb (List.not_mem_nil b)
    · exact h
  | cons b rest ih =>
    rintro st (⟨b2, hb2, hx⟩ | h)
    · rcases List.mem_cons.mp hb2 with hh | hh
      · refine ih (observerCallback b st) (Or.inr ?_)
        have : collectAdded st.pendingMutations b ≠ [] := by
          rcases hx with ⟨mr, hmr, hcl, n, hn, hel⟩
          exact collectAdded_trigger b st.pendingMutations ⟨mr, hh ▸ hmr, hcl, n, hn, hel⟩
        rw [observerCallback_eq]
        split
        · exact this
        · exact this
      · exact ih (observerCallback b st) (Or.inl ⟨b2, hh, hx⟩)
    · exact ih (observerCallback b st) (Or.inr (observerCallback_pending_mono b st h))

lemma foldl_processNode_filter : ∀ (ns : List DomNode) (st : FabState),
    ns.foldl processNode st = (ns.filter (fun n => n.attached)).foldl processNodeSpec st := by
  intro ns
  induction ns with
  | nil => intro st; rfl
  | cons n rest ih =>
    intro st
    by_cases ha : n.attached
    · rw [List.foldl_cons, List.filter_cons_of_pos (by simpa using ha), List.foldl_cons]
      rw [show processNode st n = processNodeSpec st n from by
        simp [processNode, processNodeSpec, ha]]
      exact ih _
    · rw [List.foldl_cons, List.filter_cons_of_neg (by simpa using ha)]
      rw [show processNode st n = st from by simp [processNode, ha]]
      exact ih st

lemma processNodeSpec_frame (st : FabState) (n : DomNode) :
    (processNodeSpec st n).pendingMutations = st.pendingMutations
    ∧ (processNodeSpec st n).liveTimers = st.liveTimers
    ∧ (processNodeSpec st n).mutationTimeout = st.mutationTimeout
    ∧ (processNodeSpec st n).nextTimerId = st.nextTimerId
    ∧ (processNodeSpec st n).showBlockedCount = st.showBlockedCount
    ∧ (processNodeSpec st n).filteredUsernames = st.filteredUsernames := by
  refine ⟨?_, ?_, ?_, ?_, ?_, ?_⟩
  · exact ((runFilters_frame _ _).2.2.2.2.1).trans (scan_state_fields n.links st).2.2.2.2.1
  · exact ((runFilters_frame _ _).2.2.2.2.2.2.2).trans
      (scan_state_fields n.links st).2.2.2.2.2.2.2
  · exact ((runFilters_frame _ _).2.2.2.2.2.1).trans
      (scan_state_fields n.links st).2.2.2.2.2.1
  · exact ((runFilters_frame _ _).2.2.2.2.2.2.1).trans
      (scan_state_fields n.links st).2.2.2.2.2.2.1
  · exact ((runFilters_frame _ _).2.1).trans (scan_state_fields n.links st).2.2.2.1
  · exact ((runFilters_frame _ _).1).trans (scan_state_fields n.links st).1

lemma foldl_processNodeSpec_pending : ∀ (ns : List DomNode) (st : FabState),
    (ns.foldl processNodeSpec st).pendingMutations = st.pendingMutations := by
  intro ns
  induction ns with
  | nil => intro st; rfl
  | cons n rest ih =>
    intro st
    exact (ih (processNodeSpec st n)).trans (processNodeSpec_frame st n).1

/-- Claim C8: for a mutation burst arriving within one debounce window,
each observer callback cancels the previously remembered debounce handle
and schedules a fresh one, so after the whole burst exactly one handle is
live; firing any other handle is a no-op, and firing the live one runs the
single processing pass: it snapshots and clears the pending set, discards
nodes no longer attached, runs discovery and filtering over the remaining
nodes, and emits exactly one badge update for the whole batch. -/
theorem mutation_burst_single_pass (st : FabState) (batches : List (List MutationRecord))
    (h0 : st.liveTimers = []) (h1 : st.pendingMutations = [])
    (hadd : burstAddsElement batches) :
    ∃ t, (runCallbacks batches st).liveTimers = [t]
      ∧ (∀ t2, t2 ≠ t →
          fireTimer t2 (runCallbacks batches st) = (runCallbacks batches st, []))
      ∧ (fireTimer t (runCallbacks batches st)).2
          = [updateBadge (fireTimer t (runCallbacks batches st)).1]
      ∧ (fireTimer t (runCallbacks batches st)).1.pendingMutations = []
      ∧ (fireTimer t (runCallbacks batches st)).1
          = ((runCallbacks batches st).pendingMutations.filter (fun n => n.attached)).foldl
              processNodeSpec
              { runCallbacks batches st with pendingMutations := [], liveTimers := [] } := by
  have hinv := runCallbacks_timerInv batches st (Or.inl ⟨h0, h1⟩)
  have hpend := runCallbacks_pending_ne batches st (Or.inl hadd)
  rcases hinv with ⟨_, hp⟩ | ⟨t, hl, _, _⟩
  · exact absurd hp hpend
  · have htmem : t ∈ (runCallbacks batches st).liveTimers := by
      rw [hl]
      exact List.mem_singleton.mpr rfl
    have herase : (runCallbacks batches st).liveTimers.erase t = [] := by
      rw [hl]
      simp
    have hfire : fireTimer t (runCallbacks batches st)
        = (((runCallbacks batches st).pendingMutations.filter (fun n => n.attached)).foldl
            processNodeSpec
            { runCallbacks batches st with pendingMutations := [], liveTimers := [] },
          [updateBadge
            (((runCallbacks batches st).pendingMutations.filter (fun n => n.attached)).foldl
              processNodeSpec
              { runCallbacks batches st with pendingMutations := [], liveTimers := [] })]) := by
      unfold fireTimer
      rw [if_pos htmem, herase]
      unfold processPendingMutations
      rw [if_neg (by simpa using hpend)]
      simp only [foldl_processNode_filter]
    refine ⟨t, hl, ?_, ?_, ?_, ?_⟩
    · intro t2 hne
      unfold fireTimer
      rw [if_neg (fun hmem => hne (List.mem_singleton.mp (hl ▸ hmem)))]
    · rw [hfire]
    · rw [hfire]
      exact foldl_processNodeSpec_pending _ _
    · rw [hfire]

/-- Witness for claim C8 on a concrete one-batch burst. -/
theorem mutation_burst_single_pass_witness :
    ∃ t, (runCallbacks burstFixture initialState).liveTimers = [t]
      ∧ (∀ t2, t2 ≠ t →
          fireTimer t2 (runCallbacks burstFixture initialState)
            = (runCallbacks burstFixture initialState, []))
      ∧ (fireTimer t (runCallbacks burstFixture initialState)).2
          = [updateBadge (fireTimer t (runCallbacks burstFixture initialState)).1]
      ∧ (fireTimer t (runCallbacks burstFixture initialState)).1.pendingMutations = []
      ∧ (fireTimer t (runCallbacks burstFixture initialState)).1
          = ((runCallbacks burstFixture initialState).pendingMutations.filter
              (fun n => n.attached)).foldl
              processNodeSpec
              { runCallbacks burstFixture initialState with
                pendingMutations := [], liveTimers := [] } :=
  mutation_burst_single_pass initialState burstFixture rfl rfl
    ⟨[{ isChildList := true, addedNodes := [plainNode] }], by decide,
      { isChildList := true, addedNodes := [plainNode] }, by decide, rfl,
      plainNode, by decide, rfl⟩

lemma filterElement_countInv (st : FabState) (pr : Link × Nat) (h : countInv st) :
    countInv (filterElement st pr) := by
  unfold countInv at h ⊢
  cases hw : pr.1.wrapper with
  | none => simpa [filterElement, hw] using h
  | some t =>
    by_cases he : (jsTrim t).isEmpty
    · simpa [filterElement, hw, he] using h
    · have he2 : (jsTrim t).isEmpty = false := Bool.eq_false_iff.mpr he
      by_cases hs : jsTrim t ∈ st.filteredUsernames
      · by_cases hc : pr.2 ∈ st.filteredAttr
        · simpa [filterElement, hw, he2, hs, hc] using h
        · have hfe : filterElement st pr =
              { st with
                filteredAttr := insert pr.2 st.filteredAttr
                blockedCount := st.blockedCount + 1 } := by
            simp [filterElement, hw, he2, hs, hc]
          rw [hfe]
          show st.blockedCount + 1 = ((insert pr.2 st.filteredAttr).card : Int)
          rw [Finset.card_insert_of_not_mem hc]
          push_cast
          omega
      · by_cases hc : pr.2 ∈ st.filteredAttr
        · have hfe : filterElement st pr =
              { st with
                filteredAttr := st.filteredAttr.erase pr.2
                blockedCount := st.blockedCount - 1 } := by
            simp [filterElement, hw, he2, hs, hc]
          rw [hfe]
          show st.blockedCount - 1 = ((st.filteredAttr.erase pr.2).card : Int)
          have hcard : (st.filteredAttr.erase pr.2).card + 1 = st.filteredAttr.card :=
            Finset.card_erase_add_one hc
          omega
        · simpa [filterElement, hw, he2, hs, hc] using h

lemma runFilters_countInv : ∀ (pairs : List (Link × Nat)) (st : FabState),
    countInv st → countInv (runFilters st pairs) := by
  intro pairs
  induction pairs with
  | nil => intro st h; exact h
  | cons pr rest ih =>
    intro st h
    exact ih (filterElement st pr) (filterElement_countInv st pr h)

lemma scan_countInv (links : List Link) (st : FabState) (h : countInv st) :
    countInv (findElementsInNode st links).state := by
  unfold countInv at h ⊢
  rw [(scan_state_fields links st).2.1, (scan_state_fields links st).2.2.1]
  exact h

lemma filterExistingContent_countInv (doc : List Link) (st : FabState) (h : countInv st) :
    countInv (filterExistingContent doc st).1 :=
  runFilters_countInv _ _ (scan_countInv doc st h)

lemma resetAndRefilter_countInv (doc : List Link) (st : FabState) :
    countInv (resetAndRefilter doc st).1 :=
  filterExistingContent_countInv doc _ (show (0 : Int) = (((∅ : Finset Nat)).card : Int) from rfl)

lemma handleMessage_countInv (doc : List Link) (m : JSVal) (st : FabState) (h : countInv st) :
    countInv (handleMessage doc m st).1 := by
  unfold handleMessage
  split
  · exact h
  · split
    · split
      · split
        · exact resetAndRefilter_countInv doc _
        · exact h
      · split
        · split
          · exact h
          · exact h
        · exact h
    · exact h

lemma observerCallback_engine_frame (muts : List MutationRecord) (st : FabState) :
    (observerCallback muts st).blockedCount = st.blockedCount
    ∧ (observerCallback muts st).filteredAttr = st.filteredAttr := by
  rw [observerCallback_eq]
  split
  · exact ⟨rfl, rfl⟩
  · exact ⟨rfl, rfl⟩

lemma observerCallback_countInv (muts : List MutationRecord) (st : FabState)
    (h : countInv st) : countInv (observerCallback muts st) := by
  unfold countInv at h ⊢
  rw [(observerCallback_engine_frame muts st).1, (observerCallback_engine_frame muts st).2]
  exact h

lemma processNode_countInv (st : FabState) (n : DomNode) (h : countInv st) :
    countInv (processNode st n) := by
  unfold processNode
  split
  · exact runFilters_countInv _ _ (scan_countInv n.links st h)
  · exact h

lemma foldl_processNode_countInv : ∀ (ns : List DomNode) (st : FabState),
    countInv st → countInv (ns.foldl processNode st) := by
  intro ns
  induction ns with
  | nil => intro st h; exact h
  | cons n rest ih =>
    intro st h
    exact ih (processNode st n) (processNode_countInv st n h)

lemma processPendingMutations_countInv (st : FabState) (h : countInv st) :
    countInv (processPendingMutations st).1 := by
  unfold processPendingMutations
  split
  · exact h
  · exact foldl_processNode_countInv st.pendingMutations
      { st with pendingMutations := [] } h

lemma fireTimer_countInv (t : Nat) (st : FabState) (h : countInv st) :
    countInv (fireTimer t st).1 := by
  unfold fireTimer
  split
  · exact processPendingMutations_countInv _ h
  · exact h

/-- Claim C10: starting from a fresh page, after every completed engine
operation BlockedCount equals the number of elements carrying the
data-filtered attribute, and in particular it is never negative. -/
theorem blockedCount_invariant (doc : List Link) (s : FabState)
    (h : Reachable doc s) :
    s.blockedCount = (s.filteredAttr.card : Int) ∧ 0 ≤ s.blockedCount := by
  have key : countInv s := by
    induction h with
    | init => rfl
    | load us b _ ih => exact ih
    | scan _ ih => exact filterExistingContent_countInv doc _ ih
    | observe muts _ ih => exact observerCallback_countInv muts _ ih
    | fire t _ ih => exact fireTimer_countInv t _ ih
    | message m _ ih => exact handleMessage_countInv doc m _ ih
  refine ⟨key, ?_⟩
  rw [key]
  omega

/-- Witness for claim C10 at the fresh initial state. -/
theorem blockedCount_invariant_witness :
    initialState.blockedCount = (initialState.filteredAttr.card : Int)
    ∧ 0 ≤ initialState.blockedCount :=
  blockedCount_invariant [] initialState Reachable.init
